import Mathlib

/-!
# Verification of the Proof-of-Agent core

Shallow embedding of the Proof-of-Agent repository's core computations:
the M31 field arithmetic and sponge hash, the threshold-proof circuit
(`evaluateCircuit`, `generateStarkProof`, `verifyStarkProof`), the scoring
engine (`calculateScore`, `calculateTier`), the verifier (`verifyAgent`),
the verification state machine (`runVerification`) and the attestation
memo payload (`createAttestation`).

JavaScript `bigint` values are embedded as `Int` (with `Int.tmod` for the
truncating `%`), JavaScript integers as `Int`/`Nat`, and the IEEE-754
double-precision arithmetic used by the scoring formula is embedded
exactly over `ℚ` by a round-to-nearest-even model of binary64.
-/

namespace PoA

/-! ## M31 field arithmetic (src/index.ts, `M31`) -/

namespace M31

/-- The Mersenne prime 2^31 - 1 (`M31_PRIME`). -/
def P : Int := 2147483647

/-- `M31.mod`: JS `n % M31_PRIME` is a truncating remainder (`Int.tmod`),
negative results are normalized by adding the prime. -/
def mod (n : Int) : Int :=
  let result := n.tmod P
  if result < 0 then result + P else result

/-- `M31.add`. -/
def add (a b : Int) : Int := mod (a + b)

/-- `M31.sub`. -/
def sub (a b : Int) : Int := mod (a - b + P)

/-- `M31.mul`. -/
def mul (a b : Int) : Int := mod (a * b)

/-- The body of `M31.pow`'s `while (exp > 0n)` loop, with an explicit fuel
argument so that the recursion is structural; `pow` supplies fuel `exp`,
which always suffices since the exponent at least halves each iteration. -/
def powGo : Nat → Int → Int → Nat → Int
  | 0, result, _, _ => result
  | fuel + 1, result, base, exp =>
    if exp = 0 then result
    else powGo fuel (if exp % 2 = 1 then mul result base else result) (mul base base) (exp / 2)

/-- `M31.pow`: modular exponentiation by repeated squaring. -/
def pow (base : Int) (exp : Nat) : Int := powGo exp 1 (mod base) exp

/-- `M31.inv`: inverse via Fermat's little theorem, `a^(P-2)`. -/
def inv (a : Int) : Int := pow a (2147483647 - 2)

end M31

/-! ## Tier classification (src/types.ts, `calculateTier`) -/

/-- `calculateTier`, total on all integers. -/
def calculateTier (score : Int) : String :=
  if score ≥ 80 then "excellent"
  else if score ≥ 60 then "good"
  else if score ≥ 40 then "fair"
  else "needs-work"

/-- Rank of a tier name, used to state monotonicity (needs-work < fair < good < excellent). -/
def tierRank (t : String) : Nat :=
  if t = "needs-work" then 0
  else if t = "fair" then 1
  else if t = "good" then 2
  else if t = "excellent" then 3
  else 4

/-! ## Sponge hash (src/stark.ts, `poseidonHash`) -/

/-- The eight fixed round constants of the simplified Poseidon hash. -/
def ROUND_CONSTANTS : List Int :=
  [1234567891, 2345678912, 3456789123, 4567891234,
   5678912345, 6789123456, 7891234567, 8912345678]

/-- The absorption loop of `poseidonHash`; `i` is the running input index used
to cycle through the round constants. -/
def poseidonGo (i : Nat) (state : Int) : List Int → Int
  | [] => state
  | x :: xs =>
    let s1 := M31.add state x
    let s2 := M31.add s1 (ROUND_CONSTANTS.getD (i % 8) 0)
    let s3 := M31.mod (M31.pow s2 5)
    poseidonGo (i + 1) s3 xs

/-- `poseidonHash`: absorb each input into a running state (add input, add the
cycling round constant, raise to the 5th power, reduce). -/
def poseidonHash (inputs : List Int) : Int := poseidonGo 0 0 inputs

/-! ## Threshold proof circuit (src/stark.ts) -/

/-- `CircuitInputs`; JS numbers and bigints are embedded as `Int`. -/
structure CircuitInputs where
  score : Int
  threshold : Int
  timestamp : Int
  agentIdHash : Int
deriving DecidableEq

/-- `CircuitOutputs`. -/
structure CircuitOutputs where
  meetsThreshold : Bool
  commitment : Int
  constraintsSatisfied : Bool
deriving DecidableEq

/-- `30 * 24 * 60 * 60` seconds. -/
def thirtyDays : Int := 30 * 24 * 60 * 60

/-- `evaluateCircuit`, with the clock reading `now = Math.floor(Date.now() / 1000)`
passed as an explicit argument. -/
def evaluateCircuit (now : Int) (inputs : CircuitInputs) : CircuitOutputs :=
  let rangeValid := decide (0 ≤ inputs.score ∧ inputs.score ≤ 125)
  let meetsThreshold := decide (inputs.threshold ≤ inputs.score)
  let notExpired := decide (now - inputs.timestamp < thirtyDays)
  let commitment := poseidonHash
    [inputs.agentIdHash, inputs.score, inputs.threshold, inputs.timestamp]
  { meetsThreshold := meetsThreshold && rangeValid && notExpired
    commitment := commitment
    constraintsSatisfied := rangeValid && notExpired }

/-- `ExecutionTrace`. -/
structure ExecutionTrace where
  states : List (List Int)
  length : Nat
deriving DecidableEq

/-- `generateExecutionTrace`: the fixed four-row synthetic trace. -/
def generateExecutionTrace (inputs : CircuitInputs) : ExecutionTrace :=
  let rangeCheckResult : Int := if 0 ≤ inputs.score ∧ inputs.score ≤ 125 then 1 else 0
  let thresholdResult : Int := if inputs.threshold ≤ inputs.score then 1 else 0
  let commitment := poseidonHash
    [inputs.agentIdHash, inputs.score, inputs.threshold, inputs.timestamp]
  let states := [
    [inputs.score, inputs.threshold, inputs.agentIdHash, inputs.timestamp],
    [inputs.score, rangeCheckResult, inputs.agentIdHash, inputs.timestamp],
    [inputs.score, thresholdResult, inputs.agentIdHash, inputs.timestamp],
    [commitment, thresholdResult, inputs.agentIdHash, inputs.timestamp]]
  { states := states, length := states.length }

/-- Hex digits of a natural number (lowercase, most significant first), with an
explicit fuel argument making the recursion structural; `natToHex` supplies
fuel `n + 1`, which always suffices since `n` at least quarters each step. -/
def natToHexAux : Nat → Nat → List Char → List Char
  | 0, _, acc => acc
  | fuel + 1, n, acc =>
    if n < 16 then Nat.digitChar n :: acc
    else natToHexAux fuel (n / 16) (Nat.digitChar (n % 16) :: acc)

/-- `n.toString(16)` for a natural number: lowercase hex digits, no prefix. -/
def natToHex (n : Nat) : String := String.mk (natToHexAux (n + 1) n [])

/-- JS `BigInt.prototype.toString(16)`: a minus sign followed by the hex digits
of the absolute value for negative numbers, plain hex digits otherwise. -/
def intToHex (n : Int) : String :=
  if n < 0 then "-" ++ natToHex (-n).toNat else natToHex n.toNat

/-- Hexadecimal digit recognizer (`0-9`, `a-f`, `A-F`, by code point). -/
def isHexDigit (c : Char) : Bool :=
  (48 ≤ c.toNat && c.toNat ≤ 57) || (97 ≤ c.toNat && c.toNat ≤ 102) ||
  (65 ≤ c.toNat && c.toNat ≤ 70)

/-- The ECMA-262 `StrWhiteSpaceChar` set (WhiteSpace or LineTerminator): tab,
LF, VT, FF, CR, space, NBSP, the Unicode Space_Separator code points, the line
and paragraph separators, and ZWNBSP. -/
def isJsWhitespace (c : Char) : Bool :=
  (9 ≤ c.toNat && c.toNat ≤ 13) || c.toNat = 32 || c.toNat = 160 || c.toNat = 5760 ||
  (8192 ≤ c.toNat && c.toNat ≤ 8202) || c.toNat = 8232 || c.toNat = 8233 ||
  c.toNat = 8239 || c.toNat = 8287 || c.toNat = 12288 || c.toNat = 65279

/-- Value of a hex digit character. -/
def hexDigitVal (c : Char) : Nat :=
  if c.toNat ≤ 57 then c.toNat - 48
  else if c.toNat ≤ 70 then c.toNat - 55
  else c.toNat - 87

/-- Models the JS expression `BigInt('0x' + s)`. By the `StringToBigInt`
grammar (`StrWhiteSpace_opt StrNumericLiteral StrWhiteSpace_opt`) the
concatenated string parses exactly when `s` is one or more hex digits followed
by optional whitespace: the `0x` prefix occupies the start of the string, so
leading whitespace is impossible, at least one digit must follow the prefix
immediately, and trailing whitespace is tolerated (`BigInt('0x1 ') = 1n`).
A failing parse throws a `SyntaxError`, modeled as `none`; the value is that
of the digit prefix. -/
def hexParse (s : String) : Option Nat :=
  let digits := s.data.takeWhile isHexDigit
  let rest := s.data.dropWhile isHexDigit
  if digits ≠ [] ∧ rest.all isJsWhitespace then
    some (digits.foldl (fun a c => 16 * a + hexDigitVal c) 0)
  else none

/-- `StarkProof.publicInputs`. -/
structure StarkPublicInputs where
  threshold : Int
  agentIdHash : String
  timestampVerified : Int
deriving DecidableEq

/-- `StarkProof.metadata`. -/
structure StarkMetadata where
  prover : String
  field : String
  security : Int
deriving DecidableEq

/-- `StarkProof` (the wire shape produced by `generateStarkProof`). -/
structure StarkProof where
  commitment : String
  trace : String
  proofHash : String
  publicInputs : StarkPublicInputs
  metadata : StarkMetadata
deriving DecidableEq

/-- `generateStarkProof`, with the clock passed explicitly: `now` is the
seconds clock read inside `evaluateCircuit`, `nowMs` the `Date.now()`
milliseconds value hashed into the proof hash. The thrown
`Error('Circuit constraints not satisfied')` is modeled as `Except.error`. -/
def generateStarkProof (now nowMs : Int) (inputs : CircuitInputs) : Except String StarkProof :=
  let trace := generateExecutionTrace inputs
  let result := evaluateCircuit now inputs
  if !result.constraintsSatisfied then
    .error "Circuit constraints not satisfied"
  else
    let proofHash := poseidonHash [result.commitment, (trace.length : Int), nowMs]
    .ok {
      commitment := intToHex result.commitment
      trace := String.intercalate ";"
        (trace.states.map (fun s => String.intercalate "," (s.map intToHex)))
      proofHash := intToHex proofHash
      publicInputs := {
        threshold := inputs.threshold
        agentIdHash := intToHex inputs.agentIdHash
        timestampVerified := inputs.timestamp }
      metadata := {
        prover := "moltlaunch-stark-v1-DEPRECATED"
        field := "M31"
        security := 0 } }

/-- `verifyStarkProof`: the try block parses the commitment with
`BigInt('0x' + proof.commitment)` (whose failure is caught, returning false);
the source then computes a trace length and an `expectedHash` that are never
compared against anything and cannot throw, and returns the structural
conjunction below. The dead `expectedHash` computation is omitted here; it
does not influence the result. -/
def verifyStarkProof (proof : StarkProof) : Bool :=
  match hexParse proof.commitment with
  | none => false
  | some _ =>
    decide (0 < proof.commitment.length) &&
    decide (0 < proof.trace.length) &&
    decide (0 < proof.proofHash.length) &&
    decide (0 ≤ proof.publicInputs.threshold) &&
    decide (proof.publicInputs.threshold ≤ 100)

/-- Generation followed by verification, for stating the round-trip claim. -/
def verifyAfterGen (now nowMs : Int) (inputs : CircuitInputs) : Option Bool :=
  (generateStarkProof now nowMs inputs).toOption.map verifyStarkProof

/-! ## Exact model of IEEE-754 binary64 rounding (for `calculateScore`)

`calculateScore` computes `Math.round((score / maxScore) * 100)` in JS doubles.
Binary64 arithmetic on rationals is exact rational arithmetic followed by
rounding the result to 53 significant bits (round to nearest, ties to even),
which is modeled here exactly over `ℚ`. The exponent search is capped to
`[-100, 100]`: inside that range of magnitudes the model is exactly binary64
(the quantities occurring here are ratios of weight sums, far inside it);
below `2^-100` the model only becomes more precise, which does not change any
rounded score. Subnormals and overflow are not modeled (unreachable here). -/

/-- Floor of log base 2 by upward search: the largest `e` with `2 ^ e ≤ q`,
starting at `e = -100` and capped at `-100 + fuel`; `p2` maintains the
invariant `p2 = 2 ^ e`. -/
def log2Aux : Nat → ℚ → ℚ → Int → Int
  | 0, _, _, e => e
  | fuel + 1, q, p2, e => if p2 * 2 ≤ q then log2Aux fuel q (p2 * 2) (e + 1) else e

/-- `⌊log₂ q⌋` for `2^-100 ≤ q < 2^101`. -/
def log2floor (q : ℚ) : Int := log2Aux 200 q ((2 : ℚ) ^ (-100 : Int)) (-100)

/-- Round to nearest integer, ties to even. -/
def roundHalfEven (q : ℚ) : Int :=
  if q - ⌊q⌋ = 1 / 2 then (if ⌊q⌋ % 2 = 0 then ⌊q⌋ else ⌊q⌋ + 1) else round q

/-- Round a positive rational to the nearest binary64 value: scale into the
53-bit significand range, round ties-to-even, scale back. Nonpositive inputs
(never produced by the scoring ratios) map to 0. -/
def fl (q : ℚ) : ℚ :=
  if q ≤ 0 then 0
  else (roundHalfEven (q * 2 ^ (52 - log2floor q)) : ℚ) * 2 ^ (log2floor q - 52)

/-! ## Scoring engine (src/verifier.js, `calculateScore`) -/

/-- The two-tier weight resolution `weights[check] || 10`: fixed table for the
six named checks, default 10 otherwise. This models the lookup for check names
that do not collide with JS `Object.prototype` properties; the verifier only
generates the six named checks and `capability_`-prefixed names, all safe. -/
def weight (name : String) : Nat :=
  if name = "liveness" then 30
  else if name = "healthEndpoint" then 10
  else if name = "validJson" then 15
  else if name = "consistency" then 10
  else if name = "errorHandling" then 10
  else if name = "rateLimiting" then 5
  else 10

/-- The `score` accumulator: sum of the weights of the passed checks. -/
def passedWeight (checks : List (String × Bool)) : Nat :=
  (checks.map (fun c => if c.2 then weight c.1 else 0)).sum

/-- `maxScore`: sum of the weights of all present checks. -/
def totalWeight (checks : List (String × Bool)) : Nat :=
  (checks.map (fun c => weight c.1)).sum

/-- `calculateScore`'s normalized score: `Math.round((score / maxScore) * 100)`,
with the division and the multiplication each rounding to the nearest binary64
value and `Math.round` rounding half toward positive infinity on the exact
value of its double argument. The check mapping is an ordered map (a list of
distinct check names with their booleans). With no checks present the source
divides 0 by 0, propagating NaN; that case is modeled as `none`. -/
def calculateScore (checks : List (String × Bool)) : Option Int :=
  let score := passedWeight checks
  let maxScore := totalWeight checks
  if maxScore = 0 then none
  else some (round (fl (fl ((score : ℚ) / (maxScore : ℚ)) * 100)))

/-- The exact renormalized percentage of the specification,
`round(100 × passed / total)`, for comparison with `calculateScore`. -/
def specScore (checks : List (String × Bool)) : Int :=
  round ((100 * (passedWeight checks : ℚ)) / (totalWeight checks : ℚ))

/-! ## Verifier (src/verifier.js, `verifyAgent`) -/

/-- The boolean outcome of each probe of the test battery, supplied as input:
a probe is an HTTP interaction of which the verifier only observes the
success flag. `caps` pairs each requested capability (in request order) with
its probe outcome. -/
structure ProbeOutcomes where
  liveness : Bool
  health : Bool
  validJson : Bool
  caps : List (String × Bool)
  consistency : Bool
  errorHandling : Bool
  rateLimiting : Bool

/-- `verifyAgent` (score and ordered check map; the details map is omitted):
a liveness failure returns score 0 immediately, with no further probe
consulted; `basic` stops after the three base checks, `standard` adds the
capability checks, any other level runs the comprehensive set. On the
non-short-circuit paths the check map is non-empty so `calculateScore` is
`some`; `getD 0` is never exercised. -/
def verifyAgent (level : String) (o : ProbeOutcomes) : Int × List (String × Bool) :=
  let checks0 := [("liveness", o.liveness)]
  if o.liveness = false then (0, checks0)
  else
    let checks1 := checks0 ++ [("healthEndpoint", o.health), ("validJson", o.validJson)]
    if level = "basic" then ((calculateScore checks1).getD 0, checks1)
    else
      let checks2 := checks1 ++ o.caps.map (fun c => ("capability_" ++ c.1, c.2))
      if level = "standard" then ((calculateScore checks2).getD 0, checks2)
      else
        let checks3 := checks2 ++ [("consistency", o.consistency),
          ("errorHandling", o.errorHandling), ("rateLimiting", o.rateLimiting)]
        ((calculateScore checks3).getD 0, checks3)

/-! ## Verification state machine (src/index.ts, `runVerification`) -/

/-- Lifecycle status of a `VerificationResult`. -/
inductive Status where
  | pending
  | testing
  | verified
  | failed
deriving DecidableEq

/-- The fields of a `VerificationResult` written by the state machine
transitions (identity fields and the attestation reference omitted; the
attestation write happens after the terminal transition and touches none of
these fields). -/
structure VRecord where
  status : Status
  score : Int
  checks : List (String × Bool)
  completedAt : Option Int
deriving DecidableEq

/-- The record created synchronously by POST /api/verify. -/
def initialRecord : VRecord :=
  { status := .pending, score := 0, checks := [], completedAt := none }

/-- The synchronous `status = 'testing'` write at the top of `runVerification`. -/
def testingRecord : VRecord := { initialRecord with status := .testing }

/-- The single terminal write of `runVerification`: on normal completion
(`outcome = some (score, checks)`) status, score, checks and completedAt are
set together, verified iff score ≥ 60; when `verifyAgent` threw
(`outcome = none`) the record fails with the synthetic error check. `t` is
the completion timestamp. -/
def terminalRecord (outcome : Option (Int × List (String × Bool))) (t : Int) : VRecord :=
  match outcome with
  | some (sc, cks) =>
    { status := if 60 ≤ sc then .verified else .failed
      score := sc
      checks := cks
      completedAt := some t }
  | none =>
    { testingRecord with status := .failed, checks := [("error", false)], completedAt := some t }

/-- The records a verification run writes to the store, in order: the pending
record, the testing record, and the terminal record. -/
def runStates (outcome : Option (Int × List (String × Bool))) (t : Int) : List VRecord :=
  [initialRecord, testingRecord, terminalRecord outcome t]

/-- An 18-check mapping (the six named checks plus twelve capability checks):
total weight 200, passed weight 115. On it the double-precision product
`(115/200)*100` is the binary64 value just below 57.5, so `Math.round` gives
57 while exact rounding of `100*115/200 = 57.5` gives 58. -/
def cex18 : List (String × Bool) :=
  [("liveness", true), ("healthEndpoint", true), ("validJson", true),
   ("consistency", false), ("errorHandling", false), ("rateLimiting", false),
   ("capability_c01", true), ("capability_c02", true), ("capability_c03", true),
   ("capability_c04", true), ("capability_c05", true), ("capability_c06", true),
   ("capability_c07", false), ("capability_c08", false), ("capability_c09", false),
   ("capability_c10", false), ("capability_c11", false), ("capability_c12", false)]

/-! ## Attestation memo (src/attestation.ts, `createAttestation`) -/

/-- The JSON attestation memo object built by `createAttestation` (key/value
pairs in the order of the object literal; values rendered as strings;
`agentName.substring(0, 32)` is the first 32 characters). -/
def createAttestationMemo (agentName agentAddress : String) (score : Int) (ts : Int) :
    List (String × String) :=
  [("type", "poa"), ("version", "1.0"), ("agent", agentAddress),
   ("name", String.mk (agentName.data.take 32)), ("score", toString score),
   ("ts", toString ts)]

end PoA

/-! ## Basic lemmas about M31 -/

namespace PoA

theorem M31_P_pos : (0 : Int) < M31.P := by norm_num [M31.P]

/-- The truncating remainder is bounded below by `-b` for positive `b`. -/
theorem Int_tmod_gt_neg (n : Int) {b : Int} (hb : 0 < b) : -b < n.tmod b := by
  match n, b with
  | Int.ofNat m, b =>
    have h0 : 0 ≤ (Int.ofNat m).tmod b := Int.tmod_nonneg b (Int.ofNat_nonneg m)
    omega
  | Int.negSucc m, Int.ofNat k =>
    have hb' : (0 : Int) < (k : Int) := by rwa [Int.ofNat_eq_natCast] at hb
    have hk : 0 < k := by exact_mod_cast hb'
    have hm : (m + 1) % k < k := Nat.mod_lt _ hk
    have ht : (Int.negSucc m).tmod (Int.ofNat k) = -Int.ofNat ((m + 1) % k) := rfl
    rw [ht]
    simp only [Int.ofNat_eq_natCast]
    omega
  | Int.negSucc m, Int.negSucc k =>
    simp only [Int.negSucc_eq] at hb
    omega

/-- `M31.mod` agrees with the Euclidean remainder. -/
theorem M31_mod_eq_emod (n : Int) : M31.mod n = n % M31.P := by
  unfold M31.mod
  have hP : (0 : Int) < M31.P := M31_P_pos
  have hlt : n.tmod M31.P < M31.P := Int.tmod_lt_of_pos n hP
  have hgt : -M31.P < n.tmod M31.P := Int_tmod_gt_neg n hP
  have hcong : n % M31.P = n.tmod M31.P % M31.P := by
    conv_lhs => rw [← Int.tmod_add_tdiv n M31.P]
    rw [Int.add_mul_emod_self_left]
  by_cases h : n.tmod M31.P < 0
  · simp only [h, if_pos]
    rw [hcong, ← Int.add_mul_emod_self_left (n.tmod M31.P) M31.P 1, Int.mul_one]
    exact (Int.emod_eq_of_lt (by omega) (by omega)).symm
  · simp only [h, if_neg, not_false_iff]
    rw [hcong]
    exact (Int.emod_eq_of_lt (by omega) (by omega)).symm

theorem M31_mod_range (n : Int) : 0 ≤ M31.mod n ∧ M31.mod n < M31.P := by
  rw [M31_mod_eq_emod]
  exact ⟨Int.emod_nonneg n (by norm_num [M31.P]), Int.emod_lt_of_pos n M31_P_pos⟩

/-- The prime 2^31 - 1, via the Lucas-Lehmer test. -/
theorem p31_prime : Nat.Prime 2147483647 := by
  have h : (mersenne 31).Prime := lucas_lehmer_sufficiency 31 (by norm_num) (by norm_num)
  have e : mersenne 31 = 2147483647 := by norm_num [mersenne]
  rwa [e] at h

/-- Reduced products are congruent to the plain products modulo the prime. -/
theorem M31_mul_modeq (x y : Int) : M31.mul x y ≡ x * y [ZMOD M31.P] := by
  rw [M31.mul, M31_mod_eq_emod]
  exact Int.emod_emod_of_dvd _ dvd_rfl

/-- The square-and-multiply loop computes `r * b ^ exp` modulo the prime. -/
theorem M31_powGo_spec : ∀ (fuel exp : Nat) (r b : Int), exp ≤ fuel →
    M31.powGo fuel r b exp = if exp = 0 then r else M31.mod (r * b ^ exp) := by
  intro fuel
  induction fuel with
  | zero =>
    intro exp r b hle
    have : exp = 0 := Nat.le_zero.mp hle
    subst this
    simp [M31.powGo]
  | succ f ih =>
    intro exp r b hle
    by_cases h0 : exp = 0
    · subst h0; simp [M31.powGo]
    · have hhalf : exp / 2 ≤ f := by omega
      rw [M31.powGo]
      simp only [if_neg h0]
      rw [ih (exp / 2) _ _ hhalf]
      by_cases hh : exp / 2 = 0
      · have h1 : exp = 1 := by omega
        subst h1
        simp [M31.mul, pow_one]
      · rw [if_neg hh]
        rw [M31_mod_eq_emod, M31_mod_eq_emod]
        by_cases hodd : exp % 2 = 1
        · rw [if_pos hodd]
          obtain ⟨k, hk, hek⟩ : ∃ k, k = exp / 2 ∧ exp = 2 * k + 1 := ⟨exp / 2, rfl, by omega⟩
          rw [← hk, hek]
          have hc : M31.mul r b * M31.mul b b ^ k ≡ r * b ^ (2 * k + 1) [ZMOD M31.P] := by
            calc M31.mul r b * M31.mul b b ^ k
                ≡ (r * b) * (b * b) ^ k [ZMOD M31.P] :=
                  (M31_mul_modeq r b).mul ((M31_mul_modeq b b).pow k)
              _ = r * b ^ (2 * k + 1) := by ring
          exact hc
        · rw [if_neg hodd]
          obtain ⟨k, hk, hek⟩ : ∃ k, k = exp / 2 ∧ exp = 2 * k := ⟨exp / 2, rfl, by omega⟩
          rw [← hk, hek]
          have hc : r * M31.mul b b ^ k ≡ r * b ^ (2 * k) [ZMOD M31.P] := by
            calc r * M31.mul b b ^ k
                ≡ r * (b * b) ^ k [ZMOD M31.P] :=
                  Int.ModEq.mul_left r ((M31_mul_modeq b b).pow k)
              _ = r * b ^ (2 * k) := by ring
          exact hc

/-- `M31.pow` is exponentiation followed by Euclidean reduction. -/
theorem M31_pow_eq (b : Int) (e : Nat) : M31.pow b e = b ^ e % M31.P := by
  unfold M31.pow
  rw [M31_powGo_spec e e 1 (M31.mod b) le_rfl]
  by_cases h : e = 0
  · subst h
    norm_num [M31.P]
  · rw [if_neg h, one_mul, M31_mod_eq_emod, M31_mod_eq_emod]
    exact Int.ModEq.pow e (Int.emod_emod_of_dvd _ dvd_rfl)

/-- Fermat's little theorem for the embedded field: `a ^ (P-1) ≡ 1`. -/
theorem M31_fermat {a : Int} (h0 : 0 < a) (hP : a < M31.P) :
    a ^ (2147483646 : ℕ) % M31.P = 1 := by
  have hfact : Fact (Nat.Prime 2147483647) := ⟨p31_prime⟩
  obtain ⟨n, rfl⟩ : ∃ n : ℕ, a = (n : Int) := ⟨a.toNat, (Int.toNat_of_nonneg h0.le).symm⟩
  have hn0 : 0 < n := by exact_mod_cast h0
  have hP' : (n : Int) < 2147483647 := by
    unfold M31.P at hP
    exact hP
  have hnP : n < 2147483647 := by exact_mod_cast hP'
  have hzn : (n : ZMod 2147483647) ≠ 0 := by
    rw [Ne, ZMod.natCast_zmod_eq_zero_iff_dvd]
    intro hdvd
    exact absurd (Nat.le_of_dvd hn0 hdvd) (by omega)
  have hpow : (n : ZMod 2147483647) ^ ((2147483647 : ℕ) - 1) = 1 :=
    ZMod.pow_card_sub_one_eq_one hzn
  have hpow' : (n : ZMod 2147483647) ^ (2147483646 : ℕ) = 1 := by
    norm_num at hpow
    exact hpow
  have hnat : ((n ^ 2147483646 : ℕ) : ZMod 2147483647) = ((1 : ℕ) : ZMod 2147483647) := by
    push_cast
    exact hpow'
  rw [ZMod.natCast_eq_natCast_iff'] at hnat
  have hmod : n ^ 2147483646 % 2147483647 = 1 := by simpa using hnat
  have hcast : ((n : Int)) ^ (2147483646 : ℕ) % M31.P = ((n ^ 2147483646 % 2147483647 : ℕ) : Int) := by
    unfold M31.P
    push_cast
    rfl
  rw [hcast, hmod]
  rfl

/-- C7: M31 field arithmetic over the prime p = 2^31 - 1: for all a, b in [0,p),
add(a,b) and mul(a,b) are in [0,p); pow(a,0) = 1 for every a; and
mul(a, inv(a)) = 1 for every nonzero a in [0,p), where inv(a) = pow(a, p-2). -/
theorem M31_field_arithmetic_ok (a b : Int) (ha0 : 0 ≤ a) (haP : a < M31.P)
    (hb0 : 0 ≤ b) (hbP : b < M31.P) :
    (0 ≤ M31.add a b ∧ M31.add a b < M31.P) ∧
    (0 ≤ M31.mul a b ∧ M31.mul a b < M31.P) ∧
    (∀ c : Int, M31.pow c 0 = 1) ∧
    (a ≠ 0 → M31.mul a (M31.inv a) = 1) := by
  refine ⟨M31_mod_range _, M31_mod_range _, fun c => rfl, ?_⟩
  intro hne
  have ha' : 0 < a := lt_of_le_of_ne ha0 (Ne.symm hne)
  rw [M31.inv, M31_pow_eq, M31.mul, M31_mod_eq_emod]
  have h1 : a * (a ^ (2147483647 - 2 : ℕ) % M31.P) % M31.P
      = a * a ^ (2147483647 - 2 : ℕ) % M31.P := by
    rw [Int.mul_emod, Int.emod_emod_of_dvd _ dvd_rfl, ← Int.mul_emod]
  rw [h1]
  have h2 : a * a ^ (2147483647 - 2 : ℕ) = a ^ (2147483646 : ℕ) := by
    have he : (2147483647 - 2 : ℕ) = 2147483645 := by norm_num
    rw [he, ← pow_succ']
  rw [h2]
  exact M31_fermat ha' haP

/-- Witness for C7 at a = 3, b = 5 (and exponent base 7 for the pow clause). -/
theorem M31_field_arithmetic_ok_witness :
    ((0 : Int) ≤ 3 ∧ (3 : Int) < M31.P ∧ (0 : Int) ≤ 5 ∧ (5 : Int) < M31.P ∧ (3 : Int) ≠ 0) ∧
    ((0 ≤ M31.add 3 5 ∧ M31.add 3 5 < M31.P) ∧
      (0 ≤ M31.mul 3 5 ∧ M31.mul 3 5 < M31.P) ∧
      M31.pow 7 0 = 1 ∧
      M31.mul 3 (M31.inv 3) = 1) :=
  have h := M31_field_arithmetic_ok 3 5 (by decide) (by decide) (by decide) (by decide)
  ⟨⟨by decide, by decide, by decide, by decide, by decide⟩,
    h.1, h.2.1, h.2.2.1 7, h.2.2.2 (by decide)⟩

/-- C3: calculateTier is a total pure function on all integers returning exactly one
of four values, characterized by the score thresholds 80 / 60 / 40, and the tier is
monotonic non-decreasing in the score. -/
theorem calculateTier_ok :
    (∀ s : Int,
      ((calculateTier s = "excellent") ↔ 80 ≤ s) ∧
      ((calculateTier s = "good") ↔ (60 ≤ s ∧ s < 80)) ∧
      ((calculateTier s = "fair") ↔ (40 ≤ s ∧ s < 60)) ∧
      ((calculateTier s = "needs-work") ↔ s < 40)) ∧
    (∀ s : Int, calculateTier s = "excellent" ∨ calculateTier s = "good" ∨
      calculateTier s = "fair" ∨ calculateTier s = "needs-work") ∧
    (∀ s t : Int, s ≤ t → tierRank (calculateTier s) ≤ tierRank (calculateTier t)) := by
  refine ⟨?_, ?_, ?_⟩
  · intro s
    unfold calculateTier
    split_ifs with h1 h2 h3 <;> refine ⟨?_, ?_, ?_, ?_⟩ <;> simp <;> omega
  · intro s
    unfold calculateTier
    split_ifs <;> simp
  · intro s t hst
    unfold calculateTier
    split_ifs <;> simp [tierRank] <;> omega

/-- Witness for C3's monotonicity at s = 42, t = 90. -/
theorem calculateTier_ok_witness :
    ((42 : Int) ≤ 90) ∧ tierRank (calculateTier 42) ≤ tierRank (calculateTier 90) :=
  ⟨by decide, calculateTier_ok.2.2 42 90 (by decide)⟩

/-! ## Lemmas on the sponge hash and hex serialization -/

theorem poseidonGo_nonneg : ∀ (l : List Int) (i : Nat) (s : Int), 0 ≤ s → 0 ≤ poseidonGo i s l := by
  intro l
  induction l with
  | nil => intro i s hs; exact hs
  | cons x xs ih =>
    intro i s _
    unfold poseidonGo
    exact ih (i + 1) _ (M31_mod_range _).1

theorem poseidonHash_nonneg (l : List Int) : 0 ≤ poseidonHash l :=
  poseidonGo_nonneg l 0 0 le_rfl

theorem digitChar_isHex {n : Nat} (h : n < 16) : isHexDigit (Nat.digitChar n) = true := by
  interval_cases n <;> decide

theorem natToHexAux_length : ∀ (fuel n : Nat) (acc : List Char),
    0 < fuel → acc.length < (natToHexAux fuel n acc).length := by
  intro fuel
  induction fuel with
  | zero => intro n acc h; omega
  | succ f ih =>
    intro n acc _
    unfold natToHexAux
    by_cases h : n < 16
    · rw [if_pos h]
      simp
    · rw [if_neg h]
      by_cases hf : 0 < f
      · have := ih (n / 16) (Nat.digitChar (n % 16) :: acc) hf
        simp at this
        omega
      · have hf0 : f = 0 := by omega
        subst hf0
        unfold natToHexAux
        simp

theorem natToHexAux_hex : ∀ (fuel n : Nat) (acc : List Char),
    acc.all isHexDigit = true → (natToHexAux fuel n acc).all isHexDigit = true := by
  intro fuel
  induction fuel with
  | zero => intro n acc h; exact h
  | succ f ih =>
    intro n acc hacc
    unfold natToHexAux
    by_cases h : n < 16
    · rw [if_pos h]
      simp only [List.all_cons, Bool.and_eq_true]
      exact ⟨digitChar_isHex h, hacc⟩
    · rw [if_neg h]
      refine ih (n / 16) _ ?_
      simp only [List.all_cons, Bool.and_eq_true]
      exact ⟨digitChar_isHex (Nat.mod_lt n (by omega)), hacc⟩

theorem natToHex_ne_nil (n : Nat) : (natToHex n).data ≠ [] := by
  unfold natToHex
  intro h
  have := natToHexAux_length (n + 1) n [] (by omega)
  rw [show (String.mk (natToHexAux (n + 1) n [])).data = natToHexAux (n + 1) n [] from rfl] at h
  rw [h] at this
  simp at this

theorem natToHex_hex (n : Nat) : (natToHex n).data.all isHexDigit = true :=
  natToHexAux_hex (n + 1) n [] rfl

/-- Whitespace characters are never hex digits. -/
theorem ws_not_hex {c : Char} (h : isJsWhitespace c = true) : isHexDigit c = false := by
  by_cases hh : isHexDigit c = true
  · exfalso
    unfold isHexDigit at hh
    unfold isJsWhitespace at h
    simp only [Bool.or_eq_true, Bool.and_eq_true, decide_eq_true_eq] at h hh
    omega
  · exact Bool.eq_false_iff.mpr hh

theorem all_takeWhile {p : Char → Bool} : ∀ l : List Char, (l.takeWhile p).all p = true := by
  intro l
  induction l with
  | nil => rfl
  | cons c cs ih =>
    rw [List.takeWhile_cons]
    split_ifs with hp
    · rw [List.all_cons, Bool.and_eq_true]
      exact ⟨hp, ih⟩
    · rfl

theorem takeWhile_eq_self_of_all {p : Char → Bool} :
    ∀ l : List Char, l.all p = true → l.takeWhile p = l ∧ l.dropWhile p = [] := by
  intro l
  induction l with
  | nil => intro _; exact ⟨rfl, rfl⟩
  | cons c cs ih =>
    intro h
    rw [List.all_cons, Bool.and_eq_true] at h
    rw [List.takeWhile_cons, List.dropWhile_cons]
    simp only [h.1, if_pos]
    exact ⟨by rw [(ih h.2).1], (ih h.2).2⟩

/-- Maximal-munch: on a string of hex digits followed by whitespace, the scan
recovers exactly the two parts. -/
theorem hexSplit_takeWhile (ds ws : List Char) (hds : ds.all isHexDigit = true)
    (hws : ws.all isJsWhitespace = true) :
    (ds ++ ws).takeWhile isHexDigit = ds ∧ (ds ++ ws).dropWhile isHexDigit = ws := by
  induction ds with
  | nil =>
    rw [List.nil_append]
    cases ws with
    | nil => exact ⟨rfl, rfl⟩
    | cons c cs =>
      rw [List.all_cons, Bool.and_eq_true] at hws
      rw [List.takeWhile_cons, List.dropWhile_cons]
      simp [ws_not_hex hws.1]
  | cons d ds ih =>
    rw [List.all_cons, Bool.and_eq_true] at hds
    rw [List.cons_append, List.takeWhile_cons, List.dropWhile_cons]
    simp only [hds.1, if_pos]
    exact ⟨by rw [(ih hds.2).1], (ih hds.2).2⟩

/-- `hexParse` succeeds exactly on a non-empty run of hex digits followed by
optional whitespace. -/
theorem hexParse_isSome_iff (s : String) :
    (hexParse s).isSome = true ↔
      ∃ ds ws : List Char, s.data = ds ++ ws ∧ ds ≠ [] ∧
        ds.all isHexDigit = true ∧ ws.all isJsWhitespace = true := by
  constructor
  · intro h
    simp only [hexParse] at h
    split_ifs at h with hc
    · exact ⟨s.data.takeWhile isHexDigit, s.data.dropWhile isHexDigit,
        (List.takeWhile_append_dropWhile isHexDigit s.data).symm, hc.1,
        all_takeWhile s.data, hc.2⟩
    · simp at h
  · rintro ⟨ds, ws, hsplit, hne, hhex, hws⟩
    obtain ⟨ht, hd⟩ := hexSplit_takeWhile ds ws hhex hws
    unfold hexParse
    rw [if_pos ⟨by rw [hsplit, ht]; exact hne, by rw [hsplit, hd]; exact hws⟩]
    rfl

theorem hexParse_natToHex (n : Nat) : ∃ v, hexParse (natToHex n) = some v := by
  obtain ⟨ht, hd⟩ := takeWhile_eq_self_of_all (natToHex n).data (natToHex_hex n)
  unfold hexParse
  rw [if_pos ⟨by rw [ht]; exact natToHex_ne_nil n, by rw [hd]; rfl⟩]
  exact ⟨_, rfl⟩

theorem intToHex_of_nonneg {n : Int} (h : 0 ≤ n) : intToHex n = natToHex n.toNat := by
  unfold intToHex
  rw [if_neg (by omega)]

theorem natToHex_length_pos (n : Nat) : 0 < (natToHex n).length := by
  unfold natToHex
  simpa using natToHexAux_length (n + 1) n [] (by omega)

theorem intToHex_length_pos (n : Int) : 0 < (intToHex n).length := by
  unfold intToHex
  split_ifs
  · rw [String.length_append]
    have := natToHex_length_pos (-n).toNat
    omega
  · exact natToHex_length_pos n.toNat

theorem intercalate_go_length : ∀ (as : List String) (acc sep : String),
    acc.length ≤ (String.intercalate.go acc sep as).length := by
  intro as
  induction as with
  | nil => intro acc sep; simp [String.intercalate.go]
  | cons a as ih =>
    intro acc sep
    unfold String.intercalate.go
    calc acc.length ≤ (acc ++ sep ++ a).length := by simp; omega
      _ ≤ _ := ih (acc ++ sep ++ a) sep

theorem intercalate_cons_length (sep a : String) (as : List String) :
    a.length ≤ (String.intercalate sep (a :: as)).length := by
  unfold String.intercalate
  exact intercalate_go_length as a sep

theorem intercalate_pos {sep a : String} (as : List String) (h : 0 < a.length) :
    0 < (String.intercalate sep (a :: as)).length :=
  lt_of_lt_of_le h (intercalate_cons_length sep a as)

/-! ## C4, C5, C6: proof generation and verification -/

/-- C4: with the current time an explicit input, generateStarkProof fails exactly
when the range constraint (0 ≤ score ≤ 125) or the 30-day expiry constraint fails,
independently of the threshold; score 130 fails for every threshold; an expired
timestamp fails even with score ≥ threshold; an in-range, unexpired score below
the threshold still produces a proof. -/
theorem generateStarkProof_ok_iff :
    (∀ (now nowMs : Int) (inputs : CircuitInputs),
      (generateStarkProof now nowMs inputs).isOk = true ↔
        ((0 ≤ inputs.score ∧ inputs.score ≤ 125) ∧ now - inputs.timestamp < thirtyDays)) ∧
    (∀ th : Int, (generateStarkProof 0 0 ⟨130, th, 0, 0⟩).isOk = false) ∧
    (generateStarkProof 2592000 0 ⟨70, 60, 0, 0⟩).isOk = false ∧
    (generateStarkProof 0 0 ⟨50, 60, 0, 0⟩).isOk = true := by
  have hmain : ∀ (now nowMs : Int) (inputs : CircuitInputs),
      (generateStarkProof now nowMs inputs).isOk = true ↔
        ((0 ≤ inputs.score ∧ inputs.score ≤ 125) ∧ now - inputs.timestamp < thirtyDays) := by
    intro now nowMs i
    unfold generateStarkProof evaluateCircuit
    by_cases h1 : 0 ≤ i.score ∧ i.score ≤ 125 <;>
      by_cases h2 : now - i.timestamp < thirtyDays <;>
        simp [h1, h2, Except.isOk, Except.toBool]
  refine ⟨hmain, ?_, by decide, by decide⟩
  intro th
  have h := hmain 0 0 ⟨130, th, 0, 0⟩
  simp [thirtyDays] at h
  simpa using h

set_option maxRecDepth 100000 in
/-- The record produced by a successful generateStarkProof: commitment is the hex
of the circuit commitment, trace and proofHash are non-empty, and the public
threshold is the input threshold. -/
theorem generateStarkProof_shape (now nowMs : Int) (inputs : CircuitInputs) (p : StarkProof)
    (h : generateStarkProof now nowMs inputs = .ok p) :
    p.commitment = intToHex (poseidonHash
      [inputs.agentIdHash, inputs.score, inputs.threshold, inputs.timestamp]) ∧
    0 < p.trace.length ∧ 0 < p.proofHash.length ∧
    p.publicInputs.threshold = inputs.threshold := by
  simp only [generateStarkProof] at h
  split at h
  · exact absurd h (by simp)
  · have hp := (Except.ok.injEq _ _).mp h
    subst hp
    refine ⟨by simp [evaluateCircuit], ?_, ?_, rfl⟩
    · simp only [generateExecutionTrace, List.map_cons]
      apply intercalate_pos
      apply intercalate_pos
      exact intToHex_length_pos inputs.score
    · exact intToHex_length_pos _

set_option maxRecDepth 100000 in
/-- C5 counterexample: for threshold 101 the generation succeeds (the circuit
constraints do not mention the threshold range) but verification returns false,
refuting the unconditional round-trip claim. -/
theorem starkRoundTrip_counterexample : verifyAfterGen 0 0 ⟨70, 101, 0, 0⟩ = some false := by
  decide

/-- C5 amended: the round trip verifyStarkProof (generateStarkProof inputs) = true
holds for every input that passes generation and whose threshold lies within
[0, 100] (the range the structural verifier insists on). -/
theorem starkRoundTrip_amended (now nowMs : Int) (inputs : CircuitInputs)
    (h0 : 0 ≤ inputs.threshold) (h100 : inputs.threshold ≤ 100)
    (hok : (generateStarkProof now nowMs inputs).isOk = true) :
    (generateStarkProof now nowMs inputs).toOption.map verifyStarkProof = some true := by
  obtain ⟨p, hp⟩ : ∃ p, generateStarkProof now nowMs inputs = .ok p := by
    cases hg : generateStarkProof now nowMs inputs with
    | error e => rw [hg] at hok; simp [Except.isOk, Except.toBool] at hok
    | ok p => exact ⟨p, rfl⟩
  obtain ⟨hcom, htr, hph, hth⟩ := generateStarkProof_shape now nowMs inputs p hp
  rw [hp]
  show some (verifyStarkProof p) = some true
  congr 1
  unfold verifyStarkProof
  rw [hcom, intToHex_of_nonneg (poseidonHash_nonneg _)]
  obtain ⟨v, hv⟩ := hexParse_natToHex (poseidonHash
    [inputs.agentIdHash, inputs.score, inputs.threshold, inputs.timestamp]).toNat
  rw [hv, hth]
  have hcl : 0 < (natToHex (poseidonHash
      [inputs.agentIdHash, inputs.score, inputs.threshold, inputs.timestamp]).toNat).length :=
    natToHex_length_pos _
  simp [hcl, htr, hph, h0, h100]

/-- Witness for C5's amended round trip at score 70, threshold 60. -/
theorem starkRoundTrip_amended_witness :
    (generateStarkProof 0 0 ⟨70, 60, 0, 0⟩).toOption.map verifyStarkProof = some true :=
  starkRoundTrip_amended 0 0 ⟨70, 60, 0, 0⟩ (by decide) (by decide) (by decide)

set_option maxRecDepth 100000 in
/-- C6 counterexample: a proof whose commitment "zz" is a non-empty string (as are
trace and proofHash) with threshold 50 in range satisfies the claimed structural
conditions, yet verifyStarkProof returns false, because BigInt('0x' + "zz") throws
inside the try block. -/
theorem verifyStarkProof_counterexample :
    verifyStarkProof ⟨"zz", "t", "h", ⟨50, "x", 0⟩, ⟨"p", "M31", 0⟩⟩ = false ∧
    0 < ("zz" : String).length ∧ 0 < ("t" : String).length ∧ 0 < ("h" : String).length ∧
    (0 : Int) ≤ 50 ∧ (50 : Int) ≤ 100 := by
  decide

set_option maxRecDepth 100000 in
/-- C6 amended: verifyStarkProof is structural only; it returns true iff the
commitment consists of one or more hexadecimal digits followed by optional
string-numeric whitespace (exactly the commitments on which the caught
BigInt('0x' + commitment) parse succeeds - trailing whitespace is tolerated,
as the concrete commitment "1 " below shows), the trace and proofHash are
non-empty strings, and publicInputs.threshold lies within [0, 100]. It never
recomputes or compares the commitment against a score and never verifies the
trace contents. -/
theorem verifyStarkProof_structural_iff :
    (∀ proof : StarkProof, verifyStarkProof proof = true ↔
      ((∃ ds ws : List Char, proof.commitment.data = ds ++ ws ∧ ds ≠ [] ∧
          ds.all isHexDigit = true ∧ ws.all isJsWhitespace = true) ∧
       0 < proof.trace.length ∧ 0 < proof.proofHash.length ∧
       0 ≤ proof.publicInputs.threshold ∧ proof.publicInputs.threshold ≤ 100)) ∧
    verifyStarkProof ⟨"1 ", "t", "h", ⟨50, "x", 0⟩, ⟨"p", "M31", 0⟩⟩ = true := by
  refine ⟨?_, by decide⟩
  intro proof
  unfold verifyStarkProof
  cases hp : hexParse proof.commitment with
  | none =>
    simp only [Bool.false_eq_true, false_iff]
    rintro ⟨hex, -⟩
    have hsome : (hexParse proof.commitment).isSome = true := (hexParse_isSome_iff _).mpr hex
    rw [hp] at hsome
    exact absurd hsome (by simp)
  | some v =>
    have hsome : (hexParse proof.commitment).isSome = true := by rw [hp]; rfl
    obtain ⟨ds, ws, hsplit, hne, hhex, hws⟩ := (hexParse_isSome_iff _).mp hsome
    have hex : ∃ ds ws : List Char, proof.commitment.data = ds ++ ws ∧ ds ≠ [] ∧
        ds.all isHexDigit = true ∧ ws.all isJsWhitespace = true :=
      ⟨ds, ws, hsplit, hne, hhex, hws⟩
    have hlen : 0 < proof.commitment.length := by
      have hl : proof.commitment.length = proof.commitment.data.length := rfl
      rw [hl, hsplit]
      cases ds with
      | nil => exact absurd rfl hne
      | cons c cs => simp
    constructor
    · intro h
      simp only [Bool.and_eq_true, decide_eq_true_eq] at h
      exact ⟨hex, h.1.1.1.2, h.1.1.2, h.1.2, h.2⟩
    · rintro ⟨-, h2, h3, h4, h5⟩
      simp only [Bool.and_eq_true, decide_eq_true_eq]
      exact ⟨⟨⟨⟨hlen, h2⟩, h3⟩, h4⟩, h5⟩

/-! ## Lemmas on the binary64 rounding model -/

theorem log2Aux_eq : ∀ (fuel : Nat) (q p2 : ℚ) (e0 e : Int), p2 = 2 ^ e0 →
    e0 ≤ e → e < e0 + fuel → 2 ^ e ≤ q → q < 2 ^ (e + 1) →
    log2Aux fuel q p2 e0 = e := by
  intro fuel
  induction fuel with
  | zero =>
    intro q p2 e0 e _ h1 h2 _ _
    omega
  | succ f ih =>
    intro q p2 e0 e hp2 h1 h2 hl hu
    unfold log2Aux
    by_cases he : e = e0
    · subst he
      rw [if_neg (by rw [hp2, ← zpow_add_one₀ (two_ne_zero)]; exact not_le.mpr hu)]
    · have h0 : e0 + 1 ≤ e := by omega
      have hcond : p2 * 2 ≤ q := by
        rw [hp2, ← zpow_add_one₀ (two_ne_zero)]
        calc (2 : ℚ) ^ (e0 + 1) ≤ 2 ^ e := zpow_le_zpow_right₀ (by norm_num) h0
          _ ≤ q := hl
      rw [if_pos hcond]
      exact ih q (p2 * 2) (e0 + 1) e
        (by rw [hp2, ← zpow_add_one₀ (two_ne_zero)]) h0 (by omega) hl hu

/-- Characterization of the exponent search on the binades it covers. -/
theorem log2floor_eq {q : ℚ} {e : Int} (h1 : -100 ≤ e) (h2 : e ≤ 99)
    (hl : 2 ^ e ≤ q) (hu : q < 2 ^ (e + 1)) : log2floor q = e :=
  log2Aux_eq 200 q _ (-100) e rfl h1 (by push_cast; omega) hl hu

theorem log2Aux_ge : ∀ (fuel : Nat) (q p2 : ℚ) (e0 : Int), e0 ≤ log2Aux fuel q p2 e0 := by
  intro fuel
  induction fuel with
  | zero => intro q p2 e0; exact le_rfl
  | succ f ih =>
    intro q p2 e0
    unfold log2Aux
    split_ifs
    · exact le_trans (by omega) (ih q (p2 * 2) (e0 + 1))
    · exact le_rfl

theorem log2Aux_pow_le : ∀ (fuel : Nat) (q p2 : ℚ) (e0 : Int), p2 = 2 ^ e0 →
    log2Aux fuel q p2 e0 = e0 ∨ (2 : ℚ) ^ (log2Aux fuel q p2 e0) ≤ q := by
  intro fuel
  induction fuel with
  | zero => intro q p2 e0 _; exact Or.inl rfl
  | succ f ih =>
    intro q p2 e0 hp2
    unfold log2Aux
    split_ifs with hc
    · rcases ih q (p2 * 2) (e0 + 1) (by rw [hp2, ← zpow_add_one₀ (two_ne_zero)]) with h | h
      · rw [h]
        right
        rw [hp2, ← zpow_add_one₀ (two_ne_zero)] at hc
        exact hc
      · exact Or.inr h
    · exact Or.inl rfl

/-- For arguments at most 101 the found exponent is at most 6. -/
theorem log2floor_le_six {q : ℚ} (h101 : q ≤ 101) : log2floor q ≤ 6 := by
  rcases log2Aux_pow_le 200 q _ (-100) rfl with h | h
  · have h' : log2floor q = -100 := h
    omega
  · by_contra h7
    have h7' : (7 : Int) ≤ log2floor q := by omega
    have : (2 : ℚ) ^ (7 : Int) ≤ 2 ^ (log2floor q) := zpow_le_zpow_right₀ (by norm_num) h7'
    have h128 : (128 : ℚ) ≤ q := by
      calc (128 : ℚ) = 2 ^ (7 : Int) := by norm_num
        _ ≤ 2 ^ (log2floor q) := this
        _ ≤ q := h
    linarith

theorem roundHalfEven_of_lt {q : ℚ} {n : Int} (h1 : (n : ℚ) ≤ q) (h2 : q < (n : ℚ) + 1 / 2) :
    roundHalfEven q = n := by
  have hf : ⌊q⌋ = n := Int.floor_eq_iff.mpr ⟨h1, by push_cast; linarith⟩
  unfold roundHalfEven
  rw [hf, if_neg (fun hq => by linarith), round_eq]
  exact Int.floor_eq_iff.mpr ⟨by push_cast; linarith, by push_cast; linarith⟩

theorem roundHalfEven_of_gt {q : ℚ} {n : Int} (h1 : (n : ℚ) + 1 / 2 < q) (h2 : q < (n : ℚ) + 1) :
    roundHalfEven q = n + 1 := by
  have hf : ⌊q⌋ = n := Int.floor_eq_iff.mpr ⟨by push_cast; linarith, by push_cast; linarith⟩
  unfold roundHalfEven
  rw [hf, if_neg (fun hq => by linarith), round_eq]
  exact Int.floor_eq_iff.mpr ⟨by push_cast; linarith, by push_cast; linarith⟩

theorem round_eq_of {q : ℚ} {n : Int} (h1 : (n : ℚ) - 1 / 2 ≤ q) (h2 : q < (n : ℚ) + 1 / 2) :
    round q = n := by
  rw [round_eq]
  exact Int.floor_eq_iff.mpr ⟨by push_cast; linarith, by push_cast; linarith⟩

/-- Evaluation rule for `fl` given the binade and the rounded significand. -/
theorem fl_eval {q : ℚ} {e n : Int} (hq : 0 < q) (h1 : -100 ≤ e) (h2 : e ≤ 99)
    (hl : 2 ^ e ≤ q) (hu : q < 2 ^ (e + 1))
    (hr : roundHalfEven (q * 2 ^ (52 - e)) = n) :
    fl q = (n : ℚ) * 2 ^ (e - 52) := by
  unfold fl
  rw [if_neg (by linarith), log2floor_eq h1 h2 hl hu, hr]

theorem abs_roundHalfEven_sub (q : ℚ) : |(roundHalfEven q : ℚ) - q| ≤ 1 / 2 := by
  unfold roundHalfEven
  split_ifs with h1 h2
  · rw [abs_le]
    constructor <;> linarith
  · push_cast
    rw [abs_le]
    constructor <;> linarith
  · have := abs_sub_round q
    rw [abs_sub_comm] at this
    exact this

theorem roundHalfEven_nonneg {q : ℚ} (hq : 0 ≤ q) : 0 ≤ roundHalfEven q := by
  have hf : 0 ≤ ⌊q⌋ := Int.floor_nonneg.mpr hq
  unfold roundHalfEven
  split_ifs
  · exact hf
  · omega
  · rw [round_eq]
    have : (0 : ℚ) ≤ q + 1 / 2 := by linarith
    exact le_trans hf (Int.floor_le_floor (by linarith))

theorem fl_nonneg (q : ℚ) : 0 ≤ fl q := by
  unfold fl
  split_ifs with h
  · exact le_rfl
  · have hq : 0 < q := not_le.mp h
    have h1 : (0 : ℚ) ≤ (roundHalfEven (q * 2 ^ (52 - log2floor q)) : ℚ) := by
      exact_mod_cast roundHalfEven_nonneg
        (mul_nonneg hq.le (zpow_nonneg (by norm_num) _))
    exact mul_nonneg h1 (zpow_nonneg (by norm_num) _)

/-- The model's rounding error: at most `2^-47` absolute for arguments in (0, 101]. -/
theorem abs_fl_sub {q : ℚ} (h0 : 0 < q) (h101 : q ≤ 101) : |fl q - q| ≤ 2 ^ (-47 : Int) := by
  unfold fl
  rw [if_neg (by linarith)]
  set e := log2floor q with he
  set x := q * 2 ^ (52 - e) with hx
  have he6 : e ≤ 6 := log2floor_le_six h101
  have hpos : (0 : ℚ) < 2 ^ (e - 52) := zpow_pos (by norm_num) _
  have hqx : q = x * 2 ^ (e - 52) := by
    rw [hx, mul_assoc, ← zpow_add₀ (two_ne_zero : (2 : ℚ) ≠ 0)]
    norm_num
  calc |(roundHalfEven x : ℚ) * 2 ^ (e - 52) - q|
      = |(roundHalfEven x : ℚ) - x| * (2 : ℚ) ^ (e - 52) := by
        conv_lhs => rw [hqx]
        rw [← sub_mul, abs_mul, abs_of_pos hpos]
    _ ≤ (1 / 2) * (2 : ℚ) ^ (e - 52) := by
        exact mul_le_mul_of_nonneg_right (abs_roundHalfEven_sub _) hpos.le
    _ ≤ (1 / 2) * (2 : ℚ) ^ ((6 : Int) - 52) := by
        refine mul_le_mul_of_nonneg_left ?_ (by norm_num)
        exact zpow_le_zpow_right₀ (by norm_num) (by omega)
    _ ≤ 2 ^ (-47 : Int) := by norm_num

/-! ## Concrete evaluations of the scoring pipeline -/

theorem calculateScore_eval (checks : List (String × Bool)) (s m : Nat) (v : Int)
    (hs : passedWeight checks = s) (hm : totalWeight checks = m) (hm0 : m ≠ 0)
    (h : round (fl (fl ((s : ℚ) / (m : ℚ)) * 100)) = v) :
    calculateScore checks = some v := by
  simp only [calculateScore]
  rw [hs, hm, if_neg hm0, h]

theorem calcScore_ex1 :
    calculateScore [("liveness", true), ("healthEndpoint", true), ("validJson", true)]
      = some 100 := by
  apply calculateScore_eval _ 55 55 100 (by decide) (by decide) (by norm_num)
  rw [show ((55 : ℕ) : ℚ) = 55 from by norm_num]
  have hfl1 : fl ((55 : ℚ) / (55 : ℚ)) = (4503599627370496 : ℚ) * 2 ^ ((0 : Int) - 52) := by
    apply fl_eval (by norm_num) (by norm_num) (by norm_num) (by norm_num) (by norm_num)
    exact roundHalfEven_of_lt (by norm_num) (by norm_num)
  rw [hfl1]
  have hfl2 : fl ((4503599627370496 : ℚ) * 2 ^ ((0 : Int) - 52) * 100)
      = (7036874417766400 : ℚ) * 2 ^ ((6 : Int) - 52) := by
    apply fl_eval (by norm_num) (by norm_num) (by norm_num) (by norm_num) (by norm_num)
    exact roundHalfEven_of_lt (by norm_num) (by norm_num)
  rw [hfl2]
  exact round_eq_of (by norm_num) (by norm_num)

theorem calcScore_ex2 :
    calculateScore [("liveness", true), ("healthEndpoint", false), ("validJson", true)]
      = some 82 := by
  apply calculateScore_eval _ 45 55 82 (by decide) (by decide) (by norm_num)
  rw [show ((45 : ℕ) : ℚ) = 45 from by norm_num, show ((55 : ℕ) : ℚ) = 55 from by norm_num]
  have hfl1 : fl ((45 : ℚ) / (55 : ℚ)) = (7369526662969903 : ℚ) * 2 ^ ((-1 : Int) - 52) := by
    apply fl_eval (by norm_num) (by norm_num) (by norm_num) (by norm_num) (by norm_num)
    have h := roundHalfEven_of_gt (q := (45 : ℚ) / 55 * 2 ^ ((52 : Int) - (-1)))
      (n := 7369526662969902) (by norm_num) (by norm_num)
    norm_num at h ⊢
    exact h
  rw [hfl1]
  have hfl2 : fl ((7369526662969903 : ℚ) * 2 ^ ((-1 : Int) - 52) * 100)
      = (5757442705445237 : ℚ) * 2 ^ ((6 : Int) - 52) := by
    apply fl_eval (by norm_num) (by norm_num) (by norm_num) (by norm_num) (by norm_num)
    have h := roundHalfEven_of_gt
      (q := (7369526662969903 : ℚ) * 2 ^ ((-1 : Int) - 52) * 100 * 2 ^ ((52 : Int) - 6))
      (n := 5757442705445236) (by norm_num) (by norm_num)
    norm_num at h ⊢
    exact h
  rw [hfl2]
  exact round_eq_of (by norm_num) (by norm_num)

theorem calcScore_cex : calculateScore cex18 = some 57 := by
  apply calculateScore_eval cex18 115 200 57 (by decide) (by decide) (by norm_num)
  rw [show ((115 : ℕ) : ℚ) = 115 from by norm_num, show ((200 : ℕ) : ℚ) = 200 from by norm_num]
  have hfl1 : fl ((115 : ℚ) / (200 : ℚ)) = (5179139571476070 : ℚ) * 2 ^ ((-1 : Int) - 52) := by
    apply fl_eval (by norm_num) (by norm_num) (by norm_num) (by norm_num) (by norm_num)
    exact roundHalfEven_of_lt (by norm_num) (by norm_num)
  rw [hfl1]
  have hfl2 : fl ((5179139571476070 : ℚ) * 2 ^ ((-1 : Int) - 52) * 100)
      = (8092405580431359 : ℚ) * 2 ^ ((5 : Int) - 52) := by
    apply fl_eval (by norm_num) (by norm_num) (by norm_num) (by norm_num) (by norm_num)
    exact roundHalfEven_of_lt (by norm_num) (by norm_num)
  rw [hfl2]
  exact round_eq_of (by norm_num) (by norm_num)

theorem specScore_cex : specScore cex18 = 58 := by
  unfold specScore
  rw [show passedWeight cex18 = 115 from by decide, show totalWeight cex18 = 200 from by decide]
  rw [show ((115 : ℕ) : ℚ) = 115 from by norm_num, show ((200 : ℕ) : ℚ) = 200 from by norm_num]
  exact round_eq_of (by norm_num) (by norm_num)

/-! ## Weight sums and the global accuracy of the scoring pipeline -/

theorem weight_pos (name : String) : 0 < weight name := by
  unfold weight
  split_ifs <;> omega

theorem passedWeight_le (checks : List (String × Bool)) :
    passedWeight checks ≤ totalWeight checks := by
  unfold passedWeight totalWeight
  induction checks with
  | nil => simp
  | cons c cs ih =>
    simp only [List.map_cons, List.sum_cons]
    have hc : (if c.2 then weight c.1 else 0) ≤ weight c.1 := by
      split_ifs <;> omega
    omega

theorem totalWeight_eq_zero_iff (checks : List (String × Bool)) :
    totalWeight checks = 0 ↔ checks = [] := by
  cases checks with
  | nil => simp [totalWeight]
  | cons c cs =>
    simp only [totalWeight, List.map_cons, List.sum_cons]
    constructor
    · intro h
      have := weight_pos c.1
      omega
    · intro h
      exact absurd h (by simp)

theorem fl_zero : fl 0 = 0 := by
  unfold fl
  rw [if_pos le_rfl]

/-- The double-rounded percentage is within 1/4 of the exact one. -/
theorem flfl_close {q1 : ℚ} (h0 : 0 ≤ q1) (h1 : q1 ≤ 1) :
    |fl (fl q1 * 100) - 100 * q1| ≤ 1 / 4 := by
  have hc : (2 : ℚ) ^ (-47 : Int) = 1 / 140737488355328 := by norm_num
  rcases h0.eq_or_lt with hq10 | hq1pos
  · rw [← hq10, fl_zero, zero_mul, fl_zero]
    norm_num
  · have herr1 : |fl q1 - q1| ≤ 2 ^ (-47 : Int) := abs_fl_sub hq1pos (by linarith)
    rw [hc] at herr1
    have herr1' := abs_le.mp herr1
    rcases (fl_nonneg q1).eq_or_lt with hflz | hflpos
    · rw [← hflz, zero_mul, fl_zero]
      have hq1small : q1 ≤ 1 / 140737488355328 := by
        rw [← hflz] at herr1'
        linarith [herr1'.1]
      rw [abs_le]
      constructor <;> linarith
    · have hq2le : fl q1 * 100 ≤ 101 := by linarith [herr1'.2]
      have herr2 : |fl (fl q1 * 100) - fl q1 * 100| ≤ 2 ^ (-47 : Int) :=
        abs_fl_sub (by positivity) hq2le
      rw [hc] at herr2
      have herr2' := abs_le.mp herr2
      rw [abs_le]
      constructor <;> linarith [herr1'.1, herr1'.2, herr2'.1, herr2'.2]

theorem round_nonneg_of {q : ℚ} (h : 0 ≤ q) : 0 ≤ round q := by
  rw [round_eq]
  exact Int.le_floor.mpr (by push_cast; linarith)

theorem round_le_hundred {q : ℚ} (h : q < 100 + 1 / 2) : round q ≤ 100 := by
  rw [round_eq]
  have : ⌊q + 1 / 2⌋ < 101 := Int.floor_lt.mpr (by push_cast; linarith)
  omega

theorem round_abs_sub_le {y z : ℚ} (h : |y - z| ≤ 1 / 4) : |round y - round z| ≤ 1 := by
  have hle := abs_le.mp h
  have h1 : round y ≤ round z + 1 := by
    calc round y = ⌊y + 1 / 2⌋ := round_eq y
      _ ≤ ⌊z + 1 / 2 + (1 : Int)⌋ := Int.floor_le_floor (by push_cast; linarith)
      _ = ⌊z + 1 / 2⌋ + 1 := Int.floor_add_int _ _
      _ = round z + 1 := by rw [round_eq]
  have h2 : round z ≤ round y + 1 := by
    calc round z = ⌊z + 1 / 2⌋ := round_eq z
      _ ≤ ⌊y + 1 / 2 + (1 : Int)⌋ := Int.floor_le_floor (by push_cast; linarith)
      _ = ⌊y + 1 / 2⌋ + 1 := Int.floor_add_int _ _
      _ = round y + 1 := by rw [round_eq]
  rw [abs_le]
  omega

/-- Unfolded form of `calculateScore` on a non-degenerate mapping. -/
theorem calculateScore_eq (checks : List (String × Bool)) (hm0 : totalWeight checks ≠ 0) :
    calculateScore checks = some (round (fl (fl
      ((passedWeight checks : ℚ) / (totalWeight checks : ℚ)) * 100))) := by
  simp only [calculateScore]
  rw [if_neg hm0]

theorem ratio_mem {checks : List (String × Bool)} (hm0 : totalWeight checks ≠ 0) :
    0 ≤ (passedWeight checks : ℚ) / (totalWeight checks : ℚ) ∧
    (passedWeight checks : ℚ) / (totalWeight checks : ℚ) ≤ 1 := by
  have hmpos : (0 : ℚ) < (totalWeight checks : ℚ) := by
    exact_mod_cast Nat.pos_of_ne_zero hm0
  constructor
  · positivity
  · rw [div_le_one hmpos]
    exact_mod_cast passedWeight_le checks

/-- The normalized score differs from the spec's exact formula by at most 1,
and equals `round (fl (fl (s/m) * 100))`. -/
theorem calculateScore_close (checks : List (String × Bool)) (hne : checks ≠ []) :
    (calculateScore checks).isSome = true ∧
    |(calculateScore checks).getD 0 - specScore checks| ≤ 1 := by
  have hm0 : totalWeight checks ≠ 0 := fun h => hne ((totalWeight_eq_zero_iff checks).mp h)
  rw [calculateScore_eq checks hm0]
  refine ⟨rfl, ?_⟩
  simp only [Option.getD_some]
  obtain ⟨hr0, hr1⟩ := ratio_mem hm0
  have hspec : specScore checks =
      round ((100 : ℚ) * ((passedWeight checks : ℚ) / (totalWeight checks : ℚ))) := by
    unfold specScore
    rw [mul_div_assoc]
  rw [hspec]
  exact round_abs_sub_le (flfl_close hr0 hr1)

/-! ## C1 and C10: the normalized scoring formula -/

/-- C1 counterexample: on this 18-check mapping (passed weight 115, total weight
200) calculateScore returns 57, while the claimed formula
round(100 x 115 / 200) = round(57.5) = 58: the double-precision product
(115/200)*100 is the binary64 value just below 57.5. -/
theorem calculateScore_float_counterexample :
    calculateScore cex18 = some 57 ∧ specScore cex18 = 58 ∧
    passedWeight cex18 = 115 ∧ totalWeight cex18 = 200 :=
  ⟨calcScore_cex, specScore_cex, by decide, by decide⟩

/-- C1 amended: for every non-empty mapping of check names to booleans (weights:
liveness 30, healthEndpoint 10, validJson 15, consistency 10, errorHandling 10,
rateLimiting 5, 10 for every other check name), calculateScore returns
Math.round of the double-precision evaluation of 100 x (passed weight / total
weight), which is always within 1 of the exact round(100 x passed / total); the
two stated examples evaluate exactly to 100 and 82. -/
theorem calculateScore_amended :
    (∀ checks : List (String × Bool), checks ≠ [] →
      (calculateScore checks).isSome = true ∧
      |(calculateScore checks).getD 0 - specScore checks| ≤ 1) ∧
    calculateScore [("liveness", true), ("healthEndpoint", true), ("validJson", true)]
      = some 100 ∧
    calculateScore [("liveness", true), ("healthEndpoint", false), ("validJson", true)]
      = some 82 :=
  ⟨calculateScore_close, calcScore_ex1, calcScore_ex2⟩

/-- Witness for C1's amended statement at the single-check mapping. -/
theorem calculateScore_amended_witness :
    (calculateScore [("liveness", true)]).isSome = true ∧
    |(calculateScore [("liveness", true)]).getD 0 - specScore [("liveness", true)]| ≤ 1 :=
  calculateScore_amended.1 [("liveness", true)] (by decide)

/-- C10: for every non-empty check mapping calculateScore is defined and returns
an integer in [0, 100]; the total weight of a non-empty mapping is strictly
positive, and the empty mapping is the sole input on which the division is
unguarded (the source then divides 0 by 0, yielding NaN, modeled as none). -/
theorem calculateScore_safe :
    (∀ (checks : List (String × Bool)) (v : Int),
      calculateScore checks = some v → 0 ≤ v ∧ v ≤ 100) ∧
    (∀ checks : List (String × Bool), checks ≠ [] →
      (calculateScore checks).isSome = true) ∧
    calculateScore [] = none ∧
    (∀ checks : List (String × Bool), totalWeight checks = 0 ↔ checks = []) := by
  refine ⟨?_, ?_, by rfl, totalWeight_eq_zero_iff⟩
  · intro checks v h
    have hm0 : totalWeight checks ≠ 0 := by
      intro h0
      rw [calculateScore, h0] at h
      simp at h
    rw [calculateScore_eq checks hm0] at h
    obtain ⟨hr0, hr1⟩ := ratio_mem hm0
    have hclose := flfl_close hr0 hr1
    have hclose' := abs_le.mp hclose
    have hynn : 0 ≤ fl (fl ((passedWeight checks : ℚ) / (totalWeight checks : ℚ)) * 100) :=
      fl_nonneg _
    have hyub : fl (fl ((passedWeight checks : ℚ) / (totalWeight checks : ℚ)) * 100)
        < 100 + 1 / 2 := by
      have h100 : (100 : ℚ) * ((passedWeight checks : ℚ) / (totalWeight checks : ℚ)) ≤ 100 := by
        linarith
      linarith [hclose'.2]
    have hv : v = round (fl (fl ((passedWeight checks : ℚ) / (totalWeight checks : ℚ)) * 100)) :=
      (Option.some.injEq _ _).mp h.symm
    rw [hv]
    exact ⟨round_nonneg_of hynn, round_le_hundred hyub⟩
  · intro checks hne
    have hm0 : totalWeight checks ≠ 0 := fun h => hne ((totalWeight_eq_zero_iff checks).mp h)
    rw [calculateScore_eq checks hm0]
    rfl

/-- Witness for C10 at concrete mappings. -/
theorem calculateScore_safe_witness :
    ((0 : Int) ≤ 100 ∧ (100 : Int) ≤ 100) ∧
    (calculateScore [("rateLimiting", false)]).isSome = true :=
  ⟨calculateScore_safe.1 [("liveness", true), ("healthEndpoint", true), ("validJson", true)]
      100 calcScore_ex1,
    calculateScore_safe.2.1 [("rateLimiting", false)] (by decide)⟩

/-! ## C2: liveness short-circuit -/

/-- C2: if the liveness probe fails, verifyAgent returns score exactly 0 and a
check mapping containing the liveness key and nothing else; the result does not
depend on any other probe outcome (no further probe runs). -/
theorem verifyAgent_liveness_short_circuit :
    (∀ (level : String) (o : ProbeOutcomes), o.liveness = false →
      verifyAgent level o = (0, [("liveness", false)])) ∧
    (∀ (level : String) (o o' : ProbeOutcomes), o.liveness = false → o'.liveness = false →
      verifyAgent level o = verifyAgent level o') := by
  have hmain : ∀ (level : String) (o : ProbeOutcomes), o.liveness = false →
      verifyAgent level o = (0, [("liveness", false)]) := by
    intro level o h
    unfold verifyAgent
    rw [h]
    simp
  exact ⟨hmain, fun level o o' h h' => by rw [hmain level o h, hmain level o' h']⟩

/-- Witness for C2 on a comprehensive run whose other probes all succeed. -/
theorem verifyAgent_liveness_short_circuit_witness :
    verifyAgent "comprehensive"
      ⟨false, true, true, [("trading", true)], true, true, true⟩ = (0, [("liveness", false)]) :=
  verifyAgent_liveness_short_circuit.1 "comprehensive"
    ⟨false, true, true, [("trading", true)], true, true, true⟩ rfl

/-! ## C8: state machine invariants -/

/-- C8: in every reachable record of a run, completedAt is set iff the status is
verified or failed; the terminal status is verified exactly when the score is
at least 60 and failed otherwise (including the throw path, which records the
synthetic error check); and score, checks and completedAt are written together
only at the single terminal transition (both earlier records carry score 0, no
checks and no completedAt). -/
theorem runVerification_invariants :
    (∀ (o : Option (Int × List (String × Bool))) (t : Int) (r : VRecord),
      r ∈ runStates o t → (r.completedAt ≠ none ↔ (r.status = .verified ∨ r.status = .failed))) ∧
    (∀ (sc : Int) (cks : List (String × Bool)) (t : Int),
      ((terminalRecord (some (sc, cks)) t).status = .verified ↔ 60 ≤ sc) ∧
      (terminalRecord (some (sc, cks)) t).score = sc ∧
      (terminalRecord (some (sc, cks)) t).checks = cks ∧
      (terminalRecord (some (sc, cks)) t).completedAt = some t) ∧
    (∀ t : Int, (terminalRecord none t).status = .failed ∧
      (terminalRecord none t).checks = [("error", false)] ∧
      (terminalRecord none t).completedAt = some t) ∧
    (∀ (o : Option (Int × List (String × Bool))) (t : Int),
      ∀ r ∈ (runStates o t).take 2, r.score = 0 ∧ r.checks = [] ∧ r.completedAt = none) := by
  refine ⟨?_, ?_, ?_, ?_⟩
  · intro o t r hr
    simp only [runStates, List.mem_cons, List.mem_singleton] at hr
    rcases hr with rfl | rfl | rfl | h
    · simp [initialRecord]
    · simp [testingRecord, initialRecord]
    · cases o with
      | some p =>
        obtain ⟨sc, cks⟩ := p
        simp only [terminalRecord]
        split_ifs <;> simp
      | none => simp [terminalRecord, testingRecord, initialRecord]
    · exact absurd h (List.not_mem_nil r)
  · intro sc cks t
    simp only [terminalRecord]
    split_ifs with h <;> simp [h]
  · intro t
    simp [terminalRecord, testingRecord, initialRecord]
  · intro o t r hr
    simp only [runStates, List.take, List.mem_cons, List.mem_singleton] at hr
    rcases hr with rfl | rfl | h
    · simp [initialRecord]
    · simp [testingRecord, initialRecord]
    · exact absurd h (List.not_mem_nil r)

/-- Witness for C8 at a successful outcome with score 75. -/
theorem runVerification_invariants_witness :
    (initialRecord.completedAt ≠ none ↔
      (initialRecord.status = .verified ∨ initialRecord.status = .failed)) ∧
    ((terminalRecord (some (75, [("liveness", true)])) 5).status = .verified ↔ 60 ≤ (75 : Int)) ∧
    (testingRecord.score = 0 ∧ testingRecord.checks = [] ∧ testingRecord.completedAt = none) :=
  ⟨runVerification_invariants.1 (some (75, [("liveness", true)])) 5 initialRecord
      (by simp [runStates]),
    (runVerification_invariants.2.1 75 [("liveness", true)] 5).1,
    runVerification_invariants.2.2.2 (some (75, [("liveness", true)])) 5 testingRecord
      (by simp [runStates])⟩

/-! ## C9: the attestation memo payload (code bug) -/

/-- C9 evidence: for a verified transition carrying an identity binding (agent
"TradingBot", wallet "wallet123", score 75, timestamp 1707350400),
createAttestation writes a memo whose keys are exactly type, version, agent,
name, score, ts: it contains no tier field and no identity field, although the
specification and the repository README both document the finalized
attestation payload as carrying the tier. -/
theorem createAttestation_payload_keys :
    (createAttestationMemo "TradingBot" "wallet123" 75 1707350400).map Prod.fst =
      ["type", "version", "agent", "name", "score", "ts"] ∧
    "tier" ∉ (createAttestationMemo "TradingBot" "wallet123" 75 1707350400).map Prod.fst ∧
    "identity" ∉ (createAttestationMemo "TradingBot" "wallet123" 75 1707350400).map Prod.fst := by
  refine ⟨by rfl, ?_, ?_⟩ <;> decide

end PoA
